import Mathlib

/-!
Formal model of the Edge-Cloud chunked-upload backend.

The Python sources are `src/Backend/server.py` (the full resumable-upload
service: Redis-backed sessions, per-chunk and whole-file SHA-256
verification, finalize/cancel with background cleanup) and
`src/Backend/main.py` (a minimal draft with unverified chunk writes and a
probing finalize loop).

The embedding is sequential and pure:

* the Redis session registry becomes an association list keyed by
  `upload_id`;
* the filesystem becomes an association list keyed by structured blob
  addresses (temp chunk files, final files), with the operations also
  reporting a trace of primitive filesystem effects where a claim needs
  the order of writes;
* `hashlib.sha256(...).hexdigest()` becomes an injective-by-construction
  deterministic digest function `sha256hex`; no claim depends on the
  internal structure of SHA-256, only on the digest being a function of
  the bytes;
* each `raise HTTPException(...)` site becomes a constructor of `UErr`;
  the broad `except Exception` handlers of `upload_chunk` and
  `finalize_upload` re-raise a 500 wrapping the inner error's text, which
  is modelled by the `uploadFailed` / `assemblyFailed` wrapper
  constructors;
* background tasks (chunk-blob cleanup, session deletion) are modelled as
  running to completion before the next operation, matching the claims'
  "after the operation completes, including its cleanup" reading;
* Python float division `/` for the progress fields becomes exact
  rational division guarded by the `ZeroDivisionError` it raises when the
  denominator is zero; no claim compares progress values, only their
  definedness.

Chunk indices are modelled as natural numbers: the claims quantify only
over indices `0 ≤ i`, and the HTTP layer's `int` coercion is outside the
core being specified.
-/

namespace EdgeCloud

/-- Deterministic stand-in for `hashlib.sha256(...).hexdigest()` on a byte
sequence (`server.py` lines 91-97, 165-175, 250-251, `main.py` 46-50).
The development relies only on the digest being a deterministic function
of the whole byte sequence (incremental `update` calls over a stream hash
its concatenation). -/
def sha256hex (bytes : List Nat) : String :=
  "h" ++ String.join (bytes.map fun b => "," ++ Nat.repr b)

/-- Structured storage addresses.  `server.py` realises `chunk uid i` as
`TEMP_DIR` slash the upload id, an underscore, the index zero-padded to 6
digits and the suffix `.part` (line 161 and line 241 use the same
formula, so this is the canonical chunk address that finalize reads), and
`final name` as `FINAL_DIR` slash the filename (line 235).  `main.py`
uses an unpadded index under `temp_chunks` (`mchunk`, lines 27 and 39)
and `uploads` slash the filename (`mfinal`, line 35).  The textual path
semantics of the final address, which matters for the path-traversal
claim, is modelled separately by `finalPath` below. -/
inductive Addr where
  | chunk (uploadId : String) (idx : Nat)
  | final (filename : String)
  | mchunk (uploadId : String) (idx : Nat)
  | mfinal (filename : String)
deriving DecidableEq, Repr

/-- Association-list lookup (used for both the blob store and the Redis
session registry). -/
def alGet [DecidableEq κ] : List (κ × β) → κ → Option β
  | [], _ => none
  | (k, v) :: rest, a => if k = a then some v else alGet rest a

/-- Remove a key (file deletion / `redis.delete`). -/
def alErase [DecidableEq κ] (m : List (κ × β)) (k : κ) : List (κ × β) :=
  m.filter fun p => decide (p.1 ≠ k)

/-- Bind a key, replacing any previous binding (file write / `setex`). -/
def alSet [DecidableEq κ] (m : List (κ × β)) (k : κ) (v : β) : List (κ × β) :=
  (k, v) :: alErase m k

/-- The blob store: bytes at addresses. -/
abbrev Store := List (Addr × List Nat)

/-- One upload session as stored in Redis (`server.py` lines 56-63).
The `state` field of the specification does not exist in the code;
timestamps are abstract naturals. -/
structure UploadSession where
  upload_id : String
  filename : String
  total_size : Nat
  total_chunks : Nat
  uploaded_chunks : List Nat
  created_at : Nat
  expires_at : Nat
deriving DecidableEq, Repr

abbrev Sessions := List (String × UploadSession)

/-- Whole system state: the Redis registry plus the filesystem. -/
structure Sys where
  sessions : Sessions
  store : Store
deriving DecidableEq, Repr

/-- `Config.CHUNK_SIZE` (server.py line 32). -/
def CHUNK_SIZE : Nat := 50 * 1024 * 1024

/-- `Config.MAX_FILE_SIZE` (server.py line 33). -/
def MAX_FILE_SIZE : Nat := 20 * 1024 * 1024 * 1024

/-- `Config.UPLOAD_TIMEOUT` seconds (server.py line 37). -/
def UPLOAD_TIMEOUT : Nat := 3600

/-- Error outcomes; one constructor per `raise` site of `server.py`, plus
the two catch-all 500 wrappers:  `uploadFailed e` models
`upload_chunk`'s `except Exception` handler (line 192-195) re-raising
a 500 whose detail embeds the text of `e`, and `assemblyFailed e` models
the corresponding handler of `finalize_upload` (lines 268-272). -/
inductive UErr where
  | sessionNotFound
  | fileTooLarge
  | invalidChunkIndex
  | chunkChecksumMismatch
  | missingChunks (missing : List Nat)
  | chunkFileNotFound (idx : Nat)
  | finalChecksumMismatch
  | zeroDivision
  | uploadFailed (inner : UErr)
  | assemblyFailed (inner : UErr)
deriving DecidableEq, Repr

/-- Response of `initiate_upload` (server.py lines 136-140). -/
structure InitResult where
  upload_id : String
  total_chunks : Nat
  chunk_size : Nat
deriving DecidableEq, Repr

/-- Responses of `upload_chunk` (server.py lines 158 and 184-190). -/
inductive ChunkResult where
  | alreadyUploaded (idx : Nat)
  | uploaded (idx : Nat) (checksum : String) (size : Nat) (progress : ℚ)
deriving DecidableEq, Repr

/-- Response of `get_upload_status` (server.py lines 209-216). -/
structure StatusResult where
  total_chunks : Nat
  uploadedCount : Nat
  missing_chunks : List Nat
  progress : ℚ
  expires_at : Nat
deriving DecidableEq, Repr

/-- Response of `finalize_upload` (server.py lines 260-266); `size` is the
final file's byte count. -/
structure FinalizeResult where
  filename : String
  size : Nat
  checksum : String
deriving DecidableEq, Repr

/-- Primitive filesystem effects, traced by the chunk-receiving
operations so claims about where bytes land can be stated. -/
inductive FsOp where
  | write (a : Addr) (bytes : List Nat)
  | unlink (a : Addr)
  | rename (src dst : Addr)
deriving DecidableEq, Repr

/-- Python division used for the progress fields: raises
`ZeroDivisionError` on a zero denominator, otherwise produces the exact
quotient. -/
def pyDiv (a b : Nat) : Except UErr ℚ :=
  if b = 0 then .error .zeroDivision else .ok ((a : ℚ) / (b : ℚ))

/-- The guard `if checksum and checksum != calculated_checksum` of
server.py line 176: `None` and the empty string are falsy, so a declared
checksum is only enforced when present and nonempty. -/
def declaredMismatch (declared : Option String) (computed : String) : Bool :=
  match declared with
  | none => false
  | some c => decide (c ≠ "") && decide (c ≠ computed)

/-- `initiate_upload` (server.py lines 109-140).  The server-generated
`uuid4` and the wall clock enter as the parameters `uid` and `now`.  A
zero `chunk_size` would make the Python floor division raise
`ZeroDivisionError`, modelled by the explicit guard. -/
def initiate_upload (sys : Sys) (filename : String) (total_size chunk_size : Nat)
    (uid : String) (now : Nat) : Except UErr InitResult × Sys :=
  if MAX_FILE_SIZE < total_size then (.error .fileTooLarge, sys)
  else if chunk_size = 0 then (.error .zeroDivision, sys)
  else
    let total_chunks := (total_size + chunk_size - 1) / chunk_size
    let s : UploadSession :=
      { upload_id := uid, filename := filename, total_size := total_size,
        total_chunks := total_chunks, uploaded_chunks := [],
        created_at := now, expires_at := now + UPLOAD_TIMEOUT }
    (.ok ⟨uid, total_chunks, chunk_size⟩,
     { sys with sessions := alSet sys.sessions s.upload_id s })

/-- `upload_chunk` (server.py lines 142-195).  The incoming stream is the
byte list `bytes`; the streamed write plus incremental hash of lines
164-175 has the net effect of one write of `bytes` at the canonical chunk
address and the digest of `bytes`.  On a declared-checksum mismatch the
file is unlinked and the `HTTPException` is swallowed and re-raised by
the catch-all handler as `uploadFailed`.  The session is saved (line 182)
before the progress division of line 189, so on a `ZeroDivisionError` the
appended session would survive while the chunk file is removed by the
handler; with natural-number indices that branch is unreachable because
the invalid-index guard enforces `idx < total_chunks`. -/
def upload_chunk (sys : Sys) (uid : String) (idx : Nat) (bytes : List Nat)
    (checksum : Option String) : Except UErr ChunkResult × Sys × List FsOp :=
  match alGet sys.sessions uid with
  | none => (.error .sessionNotFound, sys, [])
  | some s =>
    if s.total_chunks ≤ idx then (.error .invalidChunkIndex, sys, [])
    else if idx ∈ s.uploaded_chunks then (.ok (.alreadyUploaded idx), sys, [])
    else
      let addr := Addr.chunk uid idx
      let store1 := alSet sys.store addr bytes
      let computed := sha256hex bytes
      if declaredMismatch checksum computed then
        (.error (.uploadFailed .chunkChecksumMismatch),
         { sys with store := alErase store1 addr },
         [.write addr bytes, .unlink addr])
      else
        let s' := { s with uploaded_chunks := s.uploaded_chunks ++ [idx] }
        let sys1 : Sys := { sessions := alSet sys.sessions s'.upload_id s', store := store1 }
        match pyDiv s'.uploaded_chunks.length s'.total_chunks with
        | .error e =>
          (.error (.uploadFailed e), { sys1 with store := alErase store1 addr },
           [.write addr bytes, .unlink addr])
        | .ok p =>
          (.ok (.uploaded idx computed bytes.length p), sys1, [.write addr bytes])

/-- `get_upload_status` (server.py lines 197-216).  The progress division
is not guarded, so on a zero-chunk session the `ZeroDivisionError`
escapes the endpoint. -/
def get_upload_status (sys : Sys) (uid : String) : Except UErr StatusResult :=
  match alGet sys.sessions uid with
  | none => .error .sessionNotFound
  | some s =>
    let missing := (List.range s.total_chunks).filter fun i =>
      decide (i ∉ s.uploaded_chunks)
    match pyDiv s.uploaded_chunks.length s.total_chunks with
    | .error e => .error e
    | .ok p =>
      .ok ⟨s.total_chunks, s.uploaded_chunks.length, missing, p, s.expires_at⟩

/-- Whether an address survives `cleanup_temp_files` for the given
upload id: only that upload's chunk blobs are removed.  (The code uses
the glob pattern upload id, underscore, star, `.part`; upload ids are
server-generated UUID4 strings, which contain no underscore, so the glob
matches exactly the upload's own chunk files.) -/
def survivesCleanup (uploadId : String) : Addr → Bool
  | .chunk u _ => decide (u ≠ uploadId)
  | _ => true

/-- `cleanup_temp_files` (server.py lines 99-106): removes every chunk
blob of the given upload id. -/
def cleanup_temp_files (st : Store) (uploadId : String) : Store :=
  st.filter fun p => survivesCleanup uploadId p.1

/-- Sequential read of the chunk addresses in ascending index order
(the assembly loop, server.py lines 240-248): fails with the
chunk-missing 500 of line 244 if some address is empty, otherwise
produces the concatenation. -/
def readChunks (st : Store) (uid : String) : List Nat → Except UErr (List Nat)
  | [] => .ok []
  | i :: rest =>
    match alGet st (Addr.chunk uid i) with
    | none => .error (.chunkFileNotFound i)
    | some b =>
      match readChunks st uid rest with
      | .error e => .error e
      | .ok tail => .ok (b ++ tail)

/-- `finalize_upload` (server.py lines 218-272).  The completeness check
compares `len(uploaded_chunks)` with `total_chunks` and reports the set
difference as the missing list (lines 229-231, iterated here in
ascending order; the claim only concerns which indices it contains).
Assembly reads chunks in ascending order into the final address; the
whole-file digest of the assembled output is compared with the declared
checksum under Python truthiness (line 252, empty string is falsy).  Both
the chunk-missing and checksum-mismatch raises happen inside the `try`,
so the catch-all handler unlinks any final file and re-raises them
wrapped as `assemblyFailed`.  On success the background tasks delete the
chunk blobs and the session record (lines 256-258), modelled as having
completed. -/
def finalize_upload (sys : Sys) (uid filename original_checksum : String) :
    Except UErr FinalizeResult × Sys :=
  match alGet sys.sessions uid with
  | none => (.error .sessionNotFound, sys)
  | some s =>
    if s.uploaded_chunks.length ≠ s.total_chunks then
      (.error (.missingChunks ((List.range s.total_chunks).filter fun i =>
        decide (i ∉ s.uploaded_chunks))), sys)
    else
      match readChunks sys.store uid (List.range s.total_chunks) with
      | .error e =>
        (.error (.assemblyFailed e),
         { sys with store := alErase sys.store (Addr.final filename) })
      | .ok content =>
        let store1 := alSet sys.store (Addr.final filename) content
        let final_checksum := sha256hex content
        if original_checksum ≠ "" ∧ final_checksum ≠ original_checksum then
          (.error (.assemblyFailed .finalChecksumMismatch),
           { sys with store := alErase store1 (Addr.final filename) })
        else
          (.ok ⟨filename, content.length, final_checksum⟩,
           { sessions := alErase sys.sessions uid,
             store := cleanup_temp_files store1 uid })

/-- `cancel_upload` (server.py lines 274-285) with its background cleanup
(chunk blobs and session record) run to completion. -/
def cancel_upload (sys : Sys) (uid : String) : Except UErr String × Sys :=
  match alGet sys.sessions uid with
  | none => (.error .sessionNotFound, sys)
  | some _ =>
    (.ok "cancelled",
     { sessions := alErase sys.sessions uid,
       store := cleanup_temp_files sys.store uid })

/-- `upload_chunk` of `main.py` (lines 20-31): writes the received bytes
directly at the chunk address, with no session lookup, no verification
and no temp-then-rename step. -/
def main_upload_chunk (st : Store) (uid : String) (idx : Nat) (bytes : List Nat) :
    Store × List FsOp :=
  (alSet st (Addr.mchunk uid idx) bytes, [.write (Addr.mchunk uid idx) bytes])

/-- The probing assembly loop of `main.py` `finalize_upload` (lines
38-44): starting at index `i` with the given fuel (10000 at the top
call), reads consecutive chunk files until one is missing or the fuel is
exhausted, removing each chunk file after it is consumed, and returns the
concatenated bytes together with the store left behind. -/
def mainLoop (st : Store) (uid : String) (i : Nat) : Nat → List Nat × Store
  | 0 => ([], st)
  | fuel + 1 =>
    match alGet st (Addr.mchunk uid i) with
    | none => ([], st)
    | some b =>
      let r := mainLoop (alErase st (Addr.mchunk uid i)) uid (i + 1) fuel
      (b ++ r.1, r.2)

/-- `finalize_upload` of `main.py` (lines 33-56): concatenates the probed
chunks into the output file, then compares the file's digest with the
declared checksum (unconditionally: the field is required and even an
empty declared checksum is compared); on mismatch the output is deleted
and an error dictionary is returned. -/
def main_finalize (st : Store) (uid filename original_checksum : String) :
    Except String String × Store :=
  let r := mainLoop st uid 0 10000
  let store1 := alSet r.2 (Addr.mfinal filename) r.1
  let computed := sha256hex r.1
  if computed ≠ original_checksum then
    (.error "Checksum mismatch", alErase store1 (Addr.mfinal filename))
  else
    (.ok filename, store1)

/-- Splitting a path string at slashes, dropping empty components.  This
is the component view `pathlib` takes of a path string; it is defined by
direct recursion on the characters so that it evaluates inside the
kernel. -/
def splitSlash : List Char → List Char → List String
  | [], acc => [String.mk acc.reverse]
  | c :: cs, acc =>
    if c = '/' then String.mk acc.reverse :: splitSlash cs []
    else splitSlash cs (c :: acc)

/-- Nonempty path components of a path string. -/
def pathParts (s : String) : List String :=
  (splitSlash s.data []).filter fun c => decide (c ≠ "")

/-- A filesystem path: whether it is absolute, and its components. -/
structure PyPath where
  absolute : Bool
  parts : List String
deriving DecidableEq, Repr

/-- The `pathlib` slash operator joining a base path with a raw string:
when the right operand is absolute it replaces the base entirely,
otherwise its components are appended. -/
def pyJoin (base : PyPath) (child : String) : PyPath :=
  if child.data.head? = some '/' then ⟨true, pathParts child⟩
  else ⟨base.absolute, base.parts ++ pathParts child⟩

/-- `Config.FINAL_DIR` (server.py line 35). -/
def FINAL_DIR : PyPath := ⟨true, ["storage", "files"]⟩

/-- The final path computed by `finalize_upload` (server.py line 235):
`FINAL_DIR` joined with the client-supplied filename, used verbatim with
no sanitization. -/
def finalPath (filename : String) : PyPath := pyJoin FINAL_DIR filename

/-- The output path of `main.py` `finalize_upload` (line 35): the string
interpolation of the raw filename after the `uploads` directory. -/
def mainOutputPath (filename : String) : PyPath :=
  ⟨false, pathParts ("uploads/" ++ filename)⟩

/-- Resolution of dot-dot components against the components they follow
(collapsing at the start), enough to decide whether a path escapes the
directory it was rooted in. -/
def resolveDots (parts : List String) : List String :=
  parts.foldl
    (fun acc c =>
      if c = "." then acc
      else if c = ".." then acc.dropLast
      else acc ++ [c]) []

/-- Whether the path stays inside `FINAL_DIR` after resolving dot-dot
components: it must still be absolute and its resolved components must
extend those of `FINAL_DIR`. -/
def insideFinalDir (p : PyPath) : Bool :=
  p.absolute && FINAL_DIR.parts.isPrefixOf (resolveDots p.parts)

/-- Whether a relative path stays inside the `uploads` directory of
`main.py` after resolving dot-dot components. -/
def insideUploadsDir (p : PyPath) : Bool :=
  !p.absolute && ["uploads"].isPrefixOf (resolveDots p.parts)

/-- The registry-and-store invariant the code maintains for every stored
session: it is keyed by its own `upload_id`; its `uploaded_chunks` list
is duplicate-free and within bounds; and an index is in
`uploaded_chunks` exactly when bytes exist at its canonical chunk
address. -/
def SysInv (sys : Sys) : Prop :=
  ∀ uid s, alGet sys.sessions uid = some s →
    s.upload_id = uid ∧ s.uploaded_chunks.Nodup ∧
    (∀ i ∈ s.uploaded_chunks, i < s.total_chunks) ∧
    (∀ i : Nat, i ∈ s.uploaded_chunks ↔ (alGet sys.store (Addr.chunk uid i)).isSome)

/-- Submitting a list of chunk indices in the given order, each carrying
the bytes `data i` and no declared checksum. -/
def runUploads (uid : String) (data : Nat → List Nat) : Sys → List Nat → Sys
  | sys, [] => sys
  | sys, i :: rest => runUploads uid data (upload_chunk sys uid i (data i) none).2.1 rest

/-! Association-list lemmas. -/

theorem alGet_filter [DecidableEq κ] (q : κ → Bool) (m : List (κ × β)) (k : κ) :
    alGet (m.filter fun p => q p.1) k = if q k then alGet m k else none := by
  induction m with
  | nil => simp [alGet]
  | cons p rest ih =>
    obtain ⟨k', v'⟩ := p
    by_cases hk : k' = k
    · subst hk
      by_cases hq : q k' <;> simp [List.filter_cons, hq, alGet, ih]
    · by_cases hq : q k' <;> simp [List.filter_cons, hq, alGet, hk, ih]

theorem alGet_erase_self [DecidableEq κ] (m : List (κ × β)) (k : κ) :
    alGet (alErase m k) k = none := by
  have h := alGet_filter (fun x => decide (x ≠ k)) m k
  simp only [alErase]
  rw [h]
  simp

theorem alGet_erase_ne [DecidableEq κ] (m : List (κ × β)) (k k' : κ) (h : k' ≠ k) :
    alGet (alErase m k) k' = alGet m k' := by
  have hf := alGet_filter (fun x => decide (x ≠ k)) m k'
  simp only [alErase]
  rw [hf]
  simp [h]

theorem alGet_set_self [DecidableEq κ] (m : List (κ × β)) (k : κ) (v : β) :
    alGet (alSet m k v) k = some v := by
  simp [alSet, alGet]

theorem alGet_set_ne [DecidableEq κ] (m : List (κ × β)) (k k' : κ) (v : β) (h : k' ≠ k) :
    alGet (alSet m k v) k' = alGet m k' := by
  simp [alSet, alGet, Ne.symm h, alGet_erase_ne m k k' h]

theorem alGet_set_eq_ite [DecidableEq κ] (m : List (κ × β)) (k k' : κ) (v : β) :
    alGet (alSet m k v) k' = if k' = k then some v else alGet m k' := by
  by_cases h : k' = k
  · subst h
    rw [alGet_set_self, if_pos rfl]
  · rw [alGet_set_ne _ _ _ _ h, if_neg h]

theorem alGet_erase_eq_ite [DecidableEq κ] (m : List (κ × β)) (k k' : κ) :
    alGet (alErase m k) k' = if k' = k then none else alGet m k' := by
  by_cases h : k' = k
  · subst h
    rw [alGet_erase_self, if_pos rfl]
  · rw [alGet_erase_ne _ _ _ h, if_neg h]

theorem cleanup_get (st : Store) (uid : String) (a : Addr) :
    alGet (cleanup_temp_files st uid) a =
      if survivesCleanup uid a then alGet st a else none := by
  simp [cleanup_temp_files, alGet_filter]

theorem cleanup_get_chunk_self (st : Store) (uid : String) (i : Nat) :
    alGet (cleanup_temp_files st uid) (Addr.chunk uid i) = none := by
  simp [cleanup_get, survivesCleanup]

/-- Reading the chunk addresses succeeds and yields the in-order
concatenation when every listed index has its blob. -/
theorem readChunks_ok (st : Store) (uid : String) (data : Nat → List Nat) :
    ∀ l : List Nat, (∀ i ∈ l, alGet st (Addr.chunk uid i) = some (data i)) →
      readChunks st uid l = .ok ((l.map data).flatten)
  | [], _ => by simp [readChunks]
  | i :: rest, h => by
    have hi := h i (List.mem_cons_self i rest)
    have hrest := readChunks_ok st uid data rest fun j hj => h j (List.mem_cons_of_mem i hj)
    simp [readChunks, hi, hrest]

/-- A nodup list of naturals below `n` missing some value below `n` is
shorter than `n`. -/
theorem length_lt_of_missing {u : List Nat} {n j : Nat} (hnd : u.Nodup)
    (hb : ∀ i ∈ u, i < n) (hj : j < n) (hju : j ∉ u) : u.length < n := by
  have hsub : u.toFinset ⊆ Finset.range n := by
    intro x hx
    exact Finset.mem_range.2 (hb x (List.mem_toFinset.1 hx))
  have hss : u.toFinset ⊂ Finset.range n := by
    refine ⟨hsub, fun hsup => ?_⟩
    exact hju (List.mem_toFinset.1 (hsup (Finset.mem_range.2 hj)))
  have := Finset.card_lt_card hss
  rwa [List.toFinset_card_of_nodup hnd, Finset.card_range] at this

/-- A nodup list of naturals below `n` containing every value below `n`
has length `n`. -/
theorem length_eq_of_full {u : List Nat} {n : Nat} (hnd : u.Nodup)
    (hb : ∀ i ∈ u, i < n) (hf : ∀ j < n, j ∈ u) : u.length = n := by
  have : u.toFinset = Finset.range n := by
    apply Finset.ext
    intro x
    simp only [List.mem_toFinset, Finset.mem_range]
    exact ⟨fun hx => hb x hx, fun hx => hf x hx⟩
  have hc := congrArg Finset.card this
  rwa [List.toFinset_card_of_nodup hnd, Finset.card_range] at hc

/-- Operations against an absent (deleted, never created, or expired)
session: `upload_chunk` fails with session-not-found and changes
nothing. -/
theorem upload_chunk_not_found (sys : Sys) (uid : String) (idx : Nat) (bytes : List Nat)
    (checksum : Option String) (h : alGet sys.sessions uid = none) :
    upload_chunk sys uid idx bytes checksum = (.error .sessionNotFound, sys, []) := by
  unfold upload_chunk
  rw [h]

theorem get_upload_status_not_found (sys : Sys) (uid : String)
    (h : alGet sys.sessions uid = none) :
    get_upload_status sys uid = .error .sessionNotFound := by
  unfold get_upload_status
  rw [h]

theorem finalize_upload_not_found (sys : Sys) (uid f o : String)
    (h : alGet sys.sessions uid = none) :
    finalize_upload sys uid f o = (.error .sessionNotFound, sys) := by
  unfold finalize_upload
  rw [h]

theorem cancel_upload_not_found (sys : Sys) (uid : String)
    (h : alGet sys.sessions uid = none) :
    cancel_upload sys uid = (.error .sessionNotFound, sys) := by
  unfold cancel_upload
  rw [h]

theorem alGet_erase_sub [DecidableEq κ] (m : List (κ × β)) (k0 k : κ) (t : β)
    (h : alGet (alErase m k0) k = some t) : alGet m k = some t := by
  by_cases hk : k = k0
  · subst hk
    rw [alGet_erase_self] at h
    cases h
  · rwa [alGet_erase_ne _ _ _ hk] at h

/-- A chunk admission never changes the `total_chunks` of any stored
session: every session present afterwards was present before with the
same `total_chunks` (under the key-consistency invariant that the code
maintains: a session is stored under its own `upload_id`). -/
theorem upload_chunk_preserves_total (sys : Sys) (uid : String) (idx : Nat)
    (bytes : List Nat) (checksum : Option String)
    (hkeys : ∀ k t, alGet sys.sessions k = some t → t.upload_id = k) :
    ∀ k t, alGet (upload_chunk sys uid idx bytes checksum).2.1.sessions k = some t →
      ∃ t0, alGet sys.sessions k = some t0 ∧ t.total_chunks = t0.total_chunks := by
  intro k t
  unfold upload_chunk
  cases halg : alGet sys.sessions uid with
  | none =>
    intro ht
    exact ⟨t, ht, rfl⟩
  | some s =>
    dsimp only
    by_cases h1 : s.total_chunks ≤ idx
    · rw [if_pos h1]
      intro ht
      exact ⟨t, ht, rfl⟩
    · rw [if_neg h1]
      by_cases h2 : idx ∈ s.uploaded_chunks
      · rw [if_pos h2]
        intro ht
        exact ⟨t, ht, rfl⟩
      · rw [if_neg h2]
        by_cases h3 : declaredMismatch checksum (sha256hex bytes) = true
        · rw [if_pos h3]
          intro ht
          exact ⟨t, ht, rfl⟩
        · rw [if_neg h3]
          have hid : s.upload_id = uid := hkeys uid s halg
          have hset : ∀ ht : alGet (alSet sys.sessions s.upload_id
              { s with uploaded_chunks := s.uploaded_chunks ++ [idx] }) k = some t,
              ∃ t0, alGet sys.sessions k = some t0 ∧ t.total_chunks = t0.total_chunks := by
            intro ht
            by_cases hk : k = s.upload_id
            · subst hk
              rw [alGet_set_self] at ht
              cases ht
              exact ⟨s, by rwa [hid], rfl⟩
            · rw [alGet_set_ne _ _ _ _ hk] at ht
              exact ⟨t, ht, rfl⟩
          cases hp : pyDiv (s.uploaded_chunks ++ [idx]).length s.total_chunks with
          | error e => exact hset
          | ok p => exact hset

/-- Finalize never rewrites a session: any session stored afterwards was
already stored, unchanged (finalize only ever deletes the finalized
session's record). -/
theorem finalize_preserves_sessions (sys : Sys) (uid f o : String) :
    ∀ k t, alGet (finalize_upload sys uid f o).2.sessions k = some t →
      alGet sys.sessions k = some t := by
  intro k t
  unfold finalize_upload
  cases halg : alGet sys.sessions uid with
  | none => exact fun ht => ht
  | some s =>
    dsimp only
    by_cases h1 : s.uploaded_chunks.length ≠ s.total_chunks
    · rw [if_pos h1]
      exact fun ht => ht
    · rw [if_neg h1]
      cases hr : readChunks sys.store uid (List.range s.total_chunks) with
      | error e => exact fun ht => ht
      | ok content =>
        dsimp only
        by_cases h2 : o ≠ "" ∧ sha256hex content ≠ o
        · rw [if_pos h2]
          exact fun ht => ht
        · rw [if_neg h2]
          exact fun ht => alGet_erase_sub _ _ _ _ ht

/-- Cancel never rewrites a session either. -/
theorem cancel_preserves_sessions (sys : Sys) (uid : String) :
    ∀ k t, alGet (cancel_upload sys uid).2.sessions k = some t →
      alGet sys.sessions k = some t := by
  intro k t
  unfold cancel_upload
  cases halg : alGet sys.sessions uid with
  | none => exact fun ht => ht
  | some s => exact fun ht => alGet_erase_sub _ _ _ _ ht

/-- The probing loop of `main.py` finalize concatenates the chunk files
in ascending index order: starting at `start` with enough fuel, if the
`k` consecutive chunk files are present and the next one is absent (or
the fuel runs out exactly), the loop yields their in-order
concatenation. -/
theorem mainLoop_spec (muid : String) (data : Nat → List Nat) :
    ∀ (fuel k start : Nat) (st : Store), k ≤ fuel →
      (∀ j, j < k → alGet st (Addr.mchunk muid (start + j)) = some (data (start + j))) →
      (k < fuel → alGet st (Addr.mchunk muid (start + k)) = none) →
      (mainLoop st muid start fuel).1 =
        ((List.range k).map fun j => data (start + j)).flatten := by
  intro fuel
  induction fuel with
  | zero =>
    intro k start st hk _ _
    have hk0 : k = 0 := Nat.le_zero.mp hk
    subst hk0
    simp [mainLoop]
  | succ fuel ih =>
    intro k start st hk hpres hbnd
    cases k with
    | zero =>
      have hnone := hbnd (Nat.succ_pos fuel)
      rw [Nat.add_zero] at hnone
      unfold mainLoop
      rw [hnone]
      simp
    | succ m =>
      have hpres0 := hpres 0 (Nat.succ_pos m)
      rw [Nat.add_zero] at hpres0
      unfold mainLoop
      rw [hpres0]
      dsimp only
      have hih := ih m (start + 1) (alErase st (Addr.mchunk muid start))
        (Nat.succ_le_succ_iff.mp hk)
        (by
          intro j hj
          have h1 := hpres (j + 1) (Nat.succ_lt_succ hj)
          have heq : start + (j + 1) = start + 1 + j := by omega
          rw [heq] at h1
          rw [alGet_erase_ne _ _ _ (by
            intro hcon
            injection hcon with hcon1 hcon2
            omega)]
          exact h1)
        (by
          intro hm
          have h1 := hbnd (Nat.succ_lt_succ hm)
          have heq : start + (m + 1) = start + 1 + m := by omega
          rw [heq] at h1
          rw [alGet_erase_ne _ _ _ (by
            intro hcon
            injection hcon with hcon1 hcon2
            omega)]
          exact h1)
      rw [hih, List.range_succ_eq_map, List.map_cons, List.flatten_cons, Nat.add_zero,
        List.map_map]
      congr 1
      apply congrArg
      apply List.map_congr_left
      intro j _
      show data (start + 1 + j) = data (start + (j + 1))
      congr 1
      omega

/-- Submitting a duplicate-free list of fresh, in-range chunk indices
admits them all: afterwards the session records exactly the old indices
followed by the submitted ones, each submitted index's bytes sit at its
canonical chunk address, and no other address changed. -/
theorem runUploads_spec (uid : String) (data : Nat → List Nat) :
    ∀ (l : List Nat) (sys : Sys) (s : UploadSession),
      alGet sys.sessions uid = some s → s.upload_id = uid → l.Nodup →
      (∀ i ∈ l, i < s.total_chunks) → (∀ i ∈ l, i ∉ s.uploaded_chunks) →
      (∃ sFin : UploadSession,
        alGet (runUploads uid data sys l).sessions uid = some sFin ∧
        sFin.uploaded_chunks = s.uploaded_chunks ++ l ∧
        sFin.total_chunks = s.total_chunks ∧ sFin.upload_id = uid) ∧
      (∀ i ∈ l,
        alGet (runUploads uid data sys l).store (Addr.chunk uid i) = some (data i)) ∧
      (∀ a : Addr, (∀ i ∈ l, a ≠ Addr.chunk uid i) →
        alGet (runUploads uid data sys l).store a = alGet sys.store a) := by
  intro l
  induction l with
  | nil =>
    intro sys s hs hid _ _ _
    refine ⟨⟨s, ?_, by rw [List.append_nil], rfl, hid⟩, by simp, fun a _ => rfl⟩
    exact hs
  | cons i rest ih =>
    intro sys s hs hid hnd hb hnm
    have hi_mem : i ∈ i :: rest := List.mem_cons_self _ _
    have h1 : ¬ s.total_chunks ≤ i := Nat.not_le.mpr (hb i hi_mem)
    have h2 : i ∉ s.uploaded_chunks := hnm i hi_mem
    have h0 : ¬ s.total_chunks = 0 := fun h => h1 (h ▸ Nat.zero_le i)
    obtain ⟨hinr, hndr⟩ := List.nodup_cons.mp hnd
    have hstep : (upload_chunk sys uid i (data i) none).2.1 =
        Sys.mk (alSet sys.sessions s.upload_id
            { s with uploaded_chunks := s.uploaded_chunks ++ [i] })
          (alSet sys.store (Addr.chunk uid i) (data i)) := by
      unfold upload_chunk
      rw [hs]
      dsimp only
      rw [if_neg h1, if_neg h2]
      rw [if_neg (show ¬ declaredMismatch none (sha256hex (data i)) = true by
        simp [declaredMismatch])]
      rw [show pyDiv (s.uploaded_chunks ++ [i]).length s.total_chunks =
          .ok (((s.uploaded_chunks ++ [i]).length : ℚ) / (s.total_chunks : ℚ)) from by
        unfold pyDiv
        rw [if_neg h0]]
    have hrun : runUploads uid data sys (i :: rest) =
        runUploads uid data (upload_chunk sys uid i (data i) none).2.1 rest := rfl
    have hs1 : alGet (upload_chunk sys uid i (data i) none).2.1.sessions uid =
        some { s with uploaded_chunks := s.uploaded_chunks ++ [i] } := by
      rw [hstep]
      show alGet (alSet sys.sessions s.upload_id _) uid = _
      rw [hid]
      exact alGet_set_self _ _ _
    have hb1 : ∀ j ∈ rest,
        j < ({ s with uploaded_chunks := s.uploaded_chunks ++ [i] } :
          UploadSession).total_chunks :=
      fun j hj => hb j (List.mem_cons_of_mem i hj)
    have hnm1 : ∀ j ∈ rest,
        j ∉ ({ s with uploaded_chunks := s.uploaded_chunks ++ [i] } :
          UploadSession).uploaded_chunks := by
      intro j hj
      show j ∉ s.uploaded_chunks ++ [i]
      rw [List.mem_append, List.mem_singleton]
      rintro (hj1 | hj2)
      · exact hnm j (List.mem_cons_of_mem i hj) hj1
      · exact hinr (hj2 ▸ hj)
    obtain ⟨⟨sFin, hsF, hupF, htotF, hidF⟩, hblobF, hotherF⟩ :=
      ih (upload_chunk sys uid i (data i) none).2.1
        { s with uploaded_chunks := s.uploaded_chunks ++ [i] } hs1 hid hndr hb1 hnm1
    refine ⟨⟨sFin, by rw [hrun]; exact hsF, ?_, htotF, hidF⟩, ?_, ?_⟩
    · rw [hupF]
      show s.uploaded_chunks ++ [i] ++ rest = _
      rw [List.append_assoc, List.singleton_append]
    · intro j hj
      rw [hrun]
      rw [List.mem_cons] at hj
      cases hj with
      | inl hj =>
        subst hj
        rw [hotherF _ (by
          intro k hk hcon
          injection hcon with hcon1 hcon2
          exact hinr (hcon2 ▸ hk))]
        rw [hstep]
        exact alGet_set_self _ _ _
      | inr hj => exact hblobF j hj
    · intro a ha
      rw [hrun]
      rw [hotherF a (fun k hk => ha k (List.mem_cons_of_mem i hk))]
      rw [hstep]
      show alGet (alSet sys.store (Addr.chunk uid i) (data i)) a = _
      exact alGet_set_ne _ _ _ _ (ha i hi_mem)

/-! Claim theorems. -/

/-- C4: for every session and every chunk index already present in
`uploaded_chunks` (which, for every session the code ever stores, holds
only indices below `total_chunks`), submitting that index again returns
the already-uploaded result and is a no-op: the whole system state is
unchanged and the trace of storage effects is empty. -/
theorem c4_duplicate_admission_is_noop (sys : Sys) (uid : String) (s : UploadSession)
    (idx : Nat) (bytes : List Nat) (checksum : Option String)
    (hs : alGet sys.sessions uid = some s)
    (hmem : idx ∈ s.uploaded_chunks)
    (hbound : ∀ j ∈ s.uploaded_chunks, j < s.total_chunks) :
    upload_chunk sys uid idx bytes checksum =
      (.ok (.alreadyUploaded idx), sys, []) := by
  have hidx : ¬ s.total_chunks ≤ idx := Nat.not_le.mpr (hbound idx hmem)
  unfold upload_chunk
  rw [hs]
  simp [hidx, hmem]

theorem c4_witness :
    alGet (Sys.mk [("u", ⟨"u", "f.bin", 250, 3, [0, 2], 0, 3600⟩)] []).sessions "u" =
      some ⟨"u", "f.bin", 250, 3, [0, 2], 0, 3600⟩ ∧
    2 ∈ [0, 2] ∧ (∀ j ∈ [0, 2], j < 3) ∧
    upload_chunk (Sys.mk [("u", ⟨"u", "f.bin", 250, 3, [0, 2], 0, 3600⟩)] []) "u" 2 [7, 7] none =
      (.ok (.alreadyUploaded 2), Sys.mk [("u", ⟨"u", "f.bin", 250, 3, [0, 2], 0, 3600⟩)] [], []) :=
  ⟨by simp [alGet], by decide, by decide,
   c4_duplicate_admission_is_noop (Sys.mk [("u", ⟨"u", "f.bin", 250, 3, [0, 2], 0, 3600⟩)] [])
     "u" ⟨"u", "f.bin", 250, 3, [0, 2], 0, 3600⟩ 2 [7, 7] none (by simp [alGet]) (by decide)
     (by decide)⟩

/-- C3: a chunk submission whose declared checksum is present, nonempty
and different from the digest of the received bytes fails with the
checksum-mismatch error (re-raised by the catch-all handler as the
500 wrapper around it), the written bytes are deleted from the chunk
address, every other address is untouched, and the session registry is
unchanged, so the index is never added to `uploaded_chunks`. -/
theorem c3_checksum_mismatch_discards_chunk (sys : Sys) (uid : String) (s : UploadSession)
    (idx : Nat) (bytes : List Nat) (c : String)
    (hs : alGet sys.sessions uid = some s)
    (hidx : idx < s.total_chunks)
    (hnot : idx ∉ s.uploaded_chunks)
    (hc : c ≠ "") (hcm : c ≠ sha256hex bytes) :
    (upload_chunk sys uid idx bytes (some c)).1 =
        .error (.uploadFailed .chunkChecksumMismatch) ∧
    (upload_chunk sys uid idx bytes (some c)).2.1.sessions = sys.sessions ∧
    alGet (upload_chunk sys uid idx bytes (some c)).2.1.store (Addr.chunk uid idx) = none ∧
    ∀ a, a ≠ Addr.chunk uid idx →
      alGet (upload_chunk sys uid idx bytes (some c)).2.1.store a = alGet sys.store a := by
  have hle : ¬ s.total_chunks ≤ idx := Nat.not_le.mpr hidx
  have hmis : declaredMismatch (some c) (sha256hex bytes) = true := by
    simp [declaredMismatch, hc, hcm]
  unfold upload_chunk
  rw [hs]
  simp only [hle, if_false, hnot, if_neg, hmis, if_true, ite_false, ite_true]
  refine ⟨by simp, by simp, alGet_erase_self _ _, fun a ha => ?_⟩
  rw [alGet_erase_ne _ _ _ ha, alGet_set_ne _ _ _ _ ha]

theorem c3_witness :
    alGet (Sys.mk [("u", ⟨"u", "f.bin", 250, 3, [], 0, 3600⟩)] []).sessions "u" =
      some ⟨"u", "f.bin", 250, 3, [], 0, 3600⟩ ∧
    0 < 3 ∧ (0 : Nat) ∉ ([] : List Nat) ∧ "bogus" ≠ "" ∧ "bogus" ≠ sha256hex [1, 2] ∧
    ((upload_chunk (Sys.mk [("u", ⟨"u", "f.bin", 250, 3, [], 0, 3600⟩)] []) "u" 0 [1, 2]
        (some "bogus")).1 = .error (.uploadFailed .chunkChecksumMismatch) ∧
      (upload_chunk (Sys.mk [("u", ⟨"u", "f.bin", 250, 3, [], 0, 3600⟩)] []) "u" 0 [1, 2]
        (some "bogus")).2.1.sessions =
        (Sys.mk [("u", ⟨"u", "f.bin", 250, 3, [], 0, 3600⟩)] []).sessions ∧
      alGet (upload_chunk (Sys.mk [("u", ⟨"u", "f.bin", 250, 3, [], 0, 3600⟩)] []) "u" 0 [1, 2]
        (some "bogus")).2.1.store (Addr.chunk "u" 0) = none ∧
      ∀ a, a ≠ Addr.chunk "u" 0 →
        alGet (upload_chunk (Sys.mk [("u", ⟨"u", "f.bin", 250, 3, [], 0, 3600⟩)] []) "u" 0 [1, 2]
          (some "bogus")).2.1.store a =
          alGet (Sys.mk [("u", ⟨"u", "f.bin", 250, 3, [], 0, 3600⟩)] []).store a) :=
  ⟨by simp [alGet], by decide, by decide, by decide, by decide,
   c3_checksum_mismatch_discards_chunk (Sys.mk [("u", ⟨"u", "f.bin", 250, 3, [], 0, 3600⟩)] [])
     "u" ⟨"u", "f.bin", 250, 3, [], 0, 3600⟩ 0 [1, 2] "bogus" (by simp [alGet]) (by decide)
     (by decide) (by decide) (by decide)⟩

/-- C2: for every stored session (whose `uploaded_chunks`, as maintained
by the code, is duplicate-free and within bounds), if some index below
`total_chunks` is missing then finalize fails with the incomplete-upload
error carrying exactly the missing indices and leaves the whole system
state (session and chunk blobs) unchanged; and if every index below
`total_chunks` was uploaded, finalize never fails with the
incomplete-upload error. -/
theorem c2_finalize_incomplete_reports_missing (sys : Sys) (uid filename original : String)
    (s : UploadSession)
    (hs : alGet sys.sessions uid = some s)
    (hnd : s.uploaded_chunks.Nodup)
    (hb : ∀ i ∈ s.uploaded_chunks, i < s.total_chunks) :
    ((∃ j, j < s.total_chunks ∧ j ∉ s.uploaded_chunks) →
      finalize_upload sys uid filename original =
        (.error (.missingChunks ((List.range s.total_chunks).filter fun i =>
          decide (i ∉ s.uploaded_chunks))), sys) ∧
      ∀ i, i ∈ ((List.range s.total_chunks).filter fun i =>
          decide (i ∉ s.uploaded_chunks)) ↔
        (i < s.total_chunks ∧ i ∉ s.uploaded_chunks)) ∧
    ((∀ j, j < s.total_chunks → j ∈ s.uploaded_chunks) →
      ∀ l, (finalize_upload sys uid filename original).1 ≠
        .error (.missingChunks l)) := by
  constructor
  · rintro ⟨j, hj, hju⟩
    have hlt : s.uploaded_chunks.length < s.total_chunks :=
      length_lt_of_missing hnd hb hj hju
    constructor
    · unfold finalize_upload
      rw [hs]
      dsimp only
      rw [if_pos (Nat.ne_of_lt hlt)]
    · intro i
      simp [List.mem_filter, List.mem_range]
  · intro hfull l
    have hlen : s.uploaded_chunks.length = s.total_chunks :=
      length_eq_of_full hnd hb hfull
    unfold finalize_upload
    rw [hs]
    dsimp only
    rw [if_neg (by simp [hlen])]
    cases hr : readChunks sys.store uid (List.range s.total_chunks) with
    | error e => simp
    | ok content =>
      dsimp only
      by_cases hmis : original ≠ "" ∧ sha256hex content ≠ original
      · rw [if_pos hmis]
        simp
      · rw [if_neg hmis]
        simp

theorem c2_witness :
    alGet (Sys.mk [("u", ⟨"u", "f.bin", 250, 3, [0, 1], 0, 3600⟩)] []).sessions "u" =
      some ⟨"u", "f.bin", 250, 3, [0, 1], 0, 3600⟩ ∧
    ([0, 1] : List Nat).Nodup ∧ (∀ i ∈ [0, 1], i < 3) ∧
    (((∃ j, j < 3 ∧ j ∉ ([0, 1] : List Nat)) →
      finalize_upload (Sys.mk [("u", ⟨"u", "f.bin", 250, 3, [0, 1], 0, 3600⟩)] [])
          "u" "f.bin" "" =
        (.error (.missingChunks ((List.range 3).filter fun i =>
          decide (i ∉ ([0, 1] : List Nat)))),
         Sys.mk [("u", ⟨"u", "f.bin", 250, 3, [0, 1], 0, 3600⟩)] []) ∧
      ∀ i, i ∈ ((List.range 3).filter fun i => decide (i ∉ ([0, 1] : List Nat))) ↔
        (i < 3 ∧ i ∉ ([0, 1] : List Nat))) ∧
    ((∀ j, j < 3 → j ∈ ([0, 1] : List Nat)) →
      ∀ l, (finalize_upload (Sys.mk [("u", ⟨"u", "f.bin", 250, 3, [0, 1], 0, 3600⟩)] [])
        "u" "f.bin" "").1 ≠ .error (.missingChunks l))) :=
  ⟨by simp [alGet], by decide, by decide,
   c2_finalize_incomplete_reports_missing
     (Sys.mk [("u", ⟨"u", "f.bin", 250, 3, [0, 1], 0, 3600⟩)] []) "u" "f.bin" ""
     ⟨"u", "f.bin", 250, 3, [0, 1], 0, 3600⟩ (by simp [alGet]) (by decide) (by decide)⟩

/-- C7: cancelling an existing session acknowledges the cancellation and,
once its cleanup has run, leaves neither the session record nor any of
its chunk blobs; every subsequent operation on that upload id
(upload-chunk, status, finalize, cancel) fails with session-not-found
and leaves the state unchanged; and a chunk admission against any state
in which the session is absent fails the same way without modifying the
state, so a later chunk admission can never resurrect the session. -/
theorem c7_cancel_is_terminal (sys : Sys) (uid : String) (s : UploadSession)
    (hs : alGet sys.sessions uid = some s) :
    (cancel_upload sys uid).1 = .ok "cancelled" ∧
    alGet (cancel_upload sys uid).2.sessions uid = none ∧
    (∀ i, alGet (cancel_upload sys uid).2.store (Addr.chunk uid i) = none) ∧
    (∀ idx bytes checksum,
      upload_chunk (cancel_upload sys uid).2 uid idx bytes checksum =
        (.error .sessionNotFound, (cancel_upload sys uid).2, [])) ∧
    get_upload_status (cancel_upload sys uid).2 uid = .error .sessionNotFound ∧
    (∀ f o, finalize_upload (cancel_upload sys uid).2 uid f o =
      (.error .sessionNotFound, (cancel_upload sys uid).2)) ∧
    cancel_upload (cancel_upload sys uid).2 uid =
      (.error .sessionNotFound, (cancel_upload sys uid).2) ∧
    (∀ sys2 : Sys, alGet sys2.sessions uid = none →
      ∀ idx bytes checksum,
        (upload_chunk sys2 uid idx bytes checksum).1 = .error .sessionNotFound ∧
        (upload_chunk sys2 uid idx bytes checksum).2.1 = sys2) := by
  have hpost : cancel_upload sys uid =
      (.ok "cancelled",
       Sys.mk (alErase sys.sessions uid) (cleanup_temp_files sys.store uid)) := by
    unfold cancel_upload
    rw [hs]
  have hnone : alGet (cancel_upload sys uid).2.sessions uid = none := by
    rw [hpost]
    exact alGet_erase_self _ _
  refine ⟨by rw [hpost], hnone, ?_, ?_, ?_, ?_, ?_, ?_⟩
  · intro i
    rw [hpost]
    exact cleanup_get_chunk_self _ _ _
  · intro idx bytes checksum
    exact upload_chunk_not_found _ _ _ _ _ hnone
  · exact get_upload_status_not_found _ _ hnone
  · intro f o
    exact finalize_upload_not_found _ _ _ _ hnone
  · exact cancel_upload_not_found _ _ hnone
  · intro sys2 h2 idx bytes checksum
    rw [upload_chunk_not_found _ _ _ _ _ h2]
    exact ⟨rfl, rfl⟩

theorem c7_witness :
    alGet (Sys.mk [("u", ⟨"u", "f.bin", 250, 3, [0], 0, 3600⟩)]
        [(Addr.chunk "u" 0, [1, 2])]).sessions "u" =
      some ⟨"u", "f.bin", 250, 3, [0], 0, 3600⟩ ∧
    ((cancel_upload (Sys.mk [("u", ⟨"u", "f.bin", 250, 3, [0], 0, 3600⟩)]
        [(Addr.chunk "u" 0, [1, 2])]) "u").1 = .ok "cancelled" ∧
     alGet (cancel_upload (Sys.mk [("u", ⟨"u", "f.bin", 250, 3, [0], 0, 3600⟩)]
        [(Addr.chunk "u" 0, [1, 2])]) "u").2.sessions "u" = none ∧
     (∀ i, alGet (cancel_upload (Sys.mk [("u", ⟨"u", "f.bin", 250, 3, [0], 0, 3600⟩)]
        [(Addr.chunk "u" 0, [1, 2])]) "u").2.store (Addr.chunk "u" i) = none) ∧
     (∀ idx bytes checksum,
       upload_chunk (cancel_upload (Sys.mk [("u", ⟨"u", "f.bin", 250, 3, [0], 0, 3600⟩)]
          [(Addr.chunk "u" 0, [1, 2])]) "u").2 "u" idx bytes checksum =
         (.error .sessionNotFound,
          (cancel_upload (Sys.mk [("u", ⟨"u", "f.bin", 250, 3, [0], 0, 3600⟩)]
            [(Addr.chunk "u" 0, [1, 2])]) "u").2, [])) ∧
     get_upload_status (cancel_upload (Sys.mk [("u", ⟨"u", "f.bin", 250, 3, [0], 0, 3600⟩)]
        [(Addr.chunk "u" 0, [1, 2])]) "u").2 "u" = .error .sessionNotFound ∧
     (∀ f o, finalize_upload (cancel_upload (Sys.mk [("u", ⟨"u", "f.bin", 250, 3, [0], 0, 3600⟩)]
        [(Addr.chunk "u" 0, [1, 2])]) "u").2 "u" f o =
       (.error .sessionNotFound,
        (cancel_upload (Sys.mk [("u", ⟨"u", "f.bin", 250, 3, [0], 0, 3600⟩)]
          [(Addr.chunk "u" 0, [1, 2])]) "u").2)) ∧
     cancel_upload (cancel_upload (Sys.mk [("u", ⟨"u", "f.bin", 250, 3, [0], 0, 3600⟩)]
        [(Addr.chunk "u" 0, [1, 2])]) "u").2 "u" =
       (.error .sessionNotFound,
        (cancel_upload (Sys.mk [("u", ⟨"u", "f.bin", 250, 3, [0], 0, 3600⟩)]
          [(Addr.chunk "u" 0, [1, 2])]) "u").2) ∧
     (∀ sys2 : Sys, alGet sys2.sessions "u" = none →
       ∀ idx bytes checksum,
         (upload_chunk sys2 "u" idx bytes checksum).1 = .error .sessionNotFound ∧
         (upload_chunk sys2 "u" idx bytes checksum).2.1 = sys2)) :=
  ⟨by simp [alGet],
   c7_cancel_is_terminal (Sys.mk [("u", ⟨"u", "f.bin", 250, 3, [0], 0, 3600⟩)]
     [(Addr.chunk "u" 0, [1, 2])]) "u" ⟨"u", "f.bin", 250, 3, [0], 0, 3600⟩ (by simp [alGet])⟩

/-- C9: for every initiate request with `total_size` within the size
limit and a positive `chunk_size`, the created session (and the
response) carries `total_chunks` equal to the ceiling of `total_size`
divided by `chunk_size`; and no later operation ever changes the
`total_chunks` of any stored session: chunk admission preserves it, and
finalize and cancel only ever delete session records, never rewrite
them. -/
theorem c9_total_chunks_is_ceiling_and_immutable (sys : Sys) (filename : String)
    (total_size chunk_size : Nat) (uid : String) (now : Nat)
    (hcs : 0 < chunk_size) (hmax : total_size ≤ MAX_FILE_SIZE) :
    (initiate_upload sys filename total_size chunk_size uid now).1 =
      .ok ⟨uid, total_size ⌈/⌉ chunk_size, chunk_size⟩ ∧
    (∃ s0 : UploadSession,
      alGet (initiate_upload sys filename total_size chunk_size uid now).2.sessions uid =
        some s0 ∧ s0.total_chunks = total_size ⌈/⌉ chunk_size) ∧
    (∀ sys' : Sys, (∀ k t, alGet sys'.sessions k = some t → t.upload_id = k) →
      ∀ uid' idx bytes checksum k t,
        alGet (upload_chunk sys' uid' idx bytes checksum).2.1.sessions k = some t →
          ∃ t0, alGet sys'.sessions k = some t0 ∧ t.total_chunks = t0.total_chunks) ∧
    (∀ (sys' : Sys) (uid' f o : String) k t,
      alGet (finalize_upload sys' uid' f o).2.sessions k = some t →
        alGet sys'.sessions k = some t) ∧
    (∀ (sys' : Sys) (uid' : String) k t,
      alGet (cancel_upload sys' uid').2.sessions k = some t →
        alGet sys'.sessions k = some t) := by
  have hnlt : ¬ MAX_FILE_SIZE < total_size := Nat.not_lt.mpr hmax
  have hne : ¬ chunk_size = 0 := Nat.pos_iff_ne_zero.mp hcs
  refine ⟨?_, ?_, ?_, ?_, ?_⟩
  · unfold initiate_upload
    rw [if_neg hnlt, if_neg hne, Nat.ceilDiv_eq_add_pred_div]
  · refine ⟨⟨uid, filename, total_size, (total_size + chunk_size - 1) / chunk_size, [],
      now, now + UPLOAD_TIMEOUT⟩, ?_, ?_⟩
    · unfold initiate_upload
      rw [if_neg hnlt, if_neg hne]
      exact alGet_set_self _ _ _
    · rw [Nat.ceilDiv_eq_add_pred_div]
  · intro sys' hkeys uid' idx bytes checksum k t
    exact upload_chunk_preserves_total sys' uid' idx bytes checksum hkeys k t
  · intro sys' uid' f o k t
    exact finalize_preserves_sessions sys' uid' f o k t
  · intro sys' uid' k t
    exact cancel_preserves_sessions sys' uid' k t

theorem c9_witness :
    0 < 100 ∧ 250 ≤ MAX_FILE_SIZE ∧
    ((initiate_upload (Sys.mk [] []) "f.bin" 250 100 "u" 0).1 = .ok ⟨"u", 250 ⌈/⌉ 100, 100⟩ ∧
     (∃ s0 : UploadSession,
       alGet (initiate_upload (Sys.mk [] []) "f.bin" 250 100 "u" 0).2.sessions "u" =
         some s0 ∧ s0.total_chunks = 250 ⌈/⌉ 100) ∧
     (∀ sys' : Sys, (∀ k t, alGet sys'.sessions k = some t → t.upload_id = k) →
       ∀ uid' idx bytes checksum k t,
         alGet (upload_chunk sys' uid' idx bytes checksum).2.1.sessions k = some t →
           ∃ t0, alGet sys'.sessions k = some t0 ∧ t.total_chunks = t0.total_chunks) ∧
     (∀ (sys' : Sys) (uid' f o : String) k t,
       alGet (finalize_upload sys' uid' f o).2.sessions k = some t →
         alGet sys'.sessions k = some t) ∧
     (∀ (sys' : Sys) (uid' : String) k t,
       alGet (cancel_upload sys' uid').2.sessions k = some t →
         alGet sys'.sessions k = some t)) :=
  ⟨by decide, by decide,
   c9_total_chunks_is_ceiling_and_immutable (Sys.mk [] []) "f.bin" 250 100 "u" 0
     (by decide) (by decide)⟩

/-- C10 counterexample: on a session with `total_size = 0` and hence
`total_chunks = 0`, a chunk admission at the public interface does not
hit the division by zero: every index is rejected by the invalid-index
guard (`chunk_index >= total_chunks` holds for every natural index)
before the progress expression is evaluated; and finalize does not
unconditionally succeed, since a declared nonempty whole-file checksum
that differs from the empty file's digest makes it fail. -/
theorem c10_counterexample :
    (upload_chunk (Sys.mk [("z", ⟨"z", "e.bin", 0, 0, [], 0, 3600⟩)] []) "z" 0 [] none).1 =
      .error .invalidChunkIndex ∧
    (upload_chunk (Sys.mk [("z", ⟨"z", "e.bin", 0, 0, [], 0, 3600⟩)] []) "z" 0 [] none).1 ≠
      .error .zeroDivision ∧
    (upload_chunk (Sys.mk [("z", ⟨"z", "e.bin", 0, 0, [], 0, 3600⟩)] []) "z" 0 [] none).1 ≠
      .error (.uploadFailed .zeroDivision) ∧
    (finalize_upload (Sys.mk [("z", ⟨"z", "e.bin", 0, 0, [], 0, 3600⟩)] []) "z" "e.bin"
      "deadbeef").1 = .error (.assemblyFailed .finalChecksumMismatch) := by
  refine ⟨rfl, ?_, ?_, rfl⟩
  · intro h
    rw [show (upload_chunk (Sys.mk [("z", ⟨"z", "e.bin", 0, 0, [], 0, 3600⟩)] [])
      "z" 0 [] none).1 = .error .invalidChunkIndex from rfl] at h
    cases h
  · intro h
    rw [show (upload_chunk (Sys.mk [("z", ⟨"z", "e.bin", 0, 0, [], 0, 3600⟩)] [])
      "z" 0 [] none).1 = .error .invalidChunkIndex from rfl] at h
    cases h

/-- C10 (amended): on a zero-chunk session the status endpoint's progress
expression is an unguarded division by zero which escapes as an error;
chunk admission never reaches its own progress division because the
invalid-index guard rejects every index when `total_chunks = 0`; and
finalize succeeds at once with an empty final file when the declared
whole-file checksum is absent under truthiness (empty) or matches the
empty digest. -/
theorem c10_zero_chunk_sessions (sys : Sys) (uid : String) (s : UploadSession)
    (hs : alGet sys.sessions uid = some s)
    (h0 : s.total_chunks = 0)
    (hemp : s.uploaded_chunks = []) :
    get_upload_status sys uid = .error .zeroDivision ∧
    (∀ idx bytes checksum,
      upload_chunk sys uid idx bytes checksum = (.error .invalidChunkIndex, sys, [])) ∧
    (∀ filename, (finalize_upload sys uid filename "").1 = .ok ⟨filename, 0, sha256hex []⟩ ∧
      alGet (finalize_upload sys uid filename "").2.store (Addr.final filename) =
        some []) := by
  refine ⟨?_, ?_, ?_⟩
  · unfold get_upload_status
    rw [hs]
    dsimp only
    rw [show pyDiv s.uploaded_chunks.length s.total_chunks = .error .zeroDivision by
      unfold pyDiv
      rw [if_pos h0]]
  · intro idx bytes checksum
    unfold upload_chunk
    rw [hs]
    dsimp only
    rw [if_pos (by rw [h0]; exact Nat.zero_le idx)]
  · intro filename
    have hlen : ¬ s.uploaded_chunks.length ≠ s.total_chunks := by
      rw [hemp, h0]
      simp
    have hread : readChunks sys.store uid (List.range s.total_chunks) = .ok [] := by
      rw [h0]
      rfl
    constructor
    · unfold finalize_upload
      rw [hs]
      dsimp only
      rw [if_neg hlen, hread]
      dsimp only
      rw [if_neg (by simp)]
      rfl
    · unfold finalize_upload
      rw [hs]
      dsimp only
      rw [if_neg hlen, hread]
      dsimp only
      rw [if_neg (by simp)]
      dsimp only
      rw [cleanup_get]
      rw [show survivesCleanup uid (Addr.final filename) = true from rfl, if_pos rfl]
      exact alGet_set_self _ _ _

theorem c10_witness :
    alGet (Sys.mk [("z", ⟨"z", "e.bin", 0, 0, [], 0, 3600⟩)] []).sessions "z" =
      some ⟨"z", "e.bin", 0, 0, [], 0, 3600⟩ ∧
    (get_upload_status (Sys.mk [("z", ⟨"z", "e.bin", 0, 0, [], 0, 3600⟩)] []) "z" =
      .error .zeroDivision ∧
     (∀ idx bytes checksum,
       upload_chunk (Sys.mk [("z", ⟨"z", "e.bin", 0, 0, [], 0, 3600⟩)] []) "z" idx bytes
         checksum =
         (.error .invalidChunkIndex, Sys.mk [("z", ⟨"z", "e.bin", 0, 0, [], 0, 3600⟩)] [],
          [])) ∧
     (∀ filename,
       (finalize_upload (Sys.mk [("z", ⟨"z", "e.bin", 0, 0, [], 0, 3600⟩)] []) "z"
         filename "").1 = .ok ⟨filename, 0, sha256hex []⟩ ∧
       alGet (finalize_upload (Sys.mk [("z", ⟨"z", "e.bin", 0, 0, [], 0, 3600⟩)] []) "z"
         filename "").2.store (Addr.final filename) = some [])) :=
  ⟨by simp [alGet],
   c10_zero_chunk_sessions (Sys.mk [("z", ⟨"z", "e.bin", 0, 0, [], 0, 3600⟩)] []) "z"
     ⟨"z", "e.bin", 0, 0, [], 0, 3600⟩ (by simp [alGet]) rfl rfl⟩

/-- C8 (code bug demonstrated): neither `server.py` nor `main.py`
sanitizes the client-supplied filename.  `server.py` line 235 computes
the final path as `FINAL_DIR` slash the raw filename, so a filename
containing dot-dot components resolves outside the final storage
directory, and an absolute filename replaces the storage directory
entirely under the `pathlib` join; `main.py` line 35 interpolates the raw
filename after `uploads`, with the same dot-dot escape.  A benign
filename stays inside, confirming the check itself is meaningful. -/
theorem c8_unsanitized_filename_escapes_storage :
    insideFinalDir (finalPath "report.pdf") = true ∧
    insideFinalDir (finalPath "../../etc/passwd") = false ∧
    insideFinalDir (finalPath "/etc/passwd") = false ∧
    insideUploadsDir (mainOutputPath "ok.txt") = true ∧
    insideUploadsDir (mainOutputPath "../../etc/passwd") = false := by
  refine ⟨rfl, rfl, rfl, rfl, rfl⟩

/-- C6 counterexample: on a submission whose declared checksum fails
verification, the incoming bytes were nevertheless written to the
canonical chunk address (the very address finalize reads) and then
unlinked from it — no temporary address and no rename/promote step
appears in the effect trace.  So the canonical address did hold
unverified bytes, contradicting the claimed temp-then-promote
mechanism. -/
theorem c6_counterexample :
    (upload_chunk (Sys.mk [("u", ⟨"u", "f.bin", 2, 1, [], 0, 3600⟩)] []) "u" 0 [1, 2]
      (some "wrong")).2.2 =
      [FsOp.write (Addr.chunk "u" 0) [1, 2], FsOp.unlink (Addr.chunk "u" 0)] ∧
    FsOp.write (Addr.chunk "u" 0) [1, 2] ∈
      (upload_chunk (Sys.mk [("u", ⟨"u", "f.bin", 2, 1, [], 0, 3600⟩)] []) "u" 0 [1, 2]
        (some "wrong")).2.2 ∧
    (upload_chunk (Sys.mk [("u", ⟨"u", "f.bin", 2, 1, [], 0, 3600⟩)] []) "u" 0 [1, 2]
      (some "wrong")).1 = .error (.uploadFailed .chunkChecksumMismatch) := by
  refine ⟨rfl, ?_, rfl⟩
  rw [show (upload_chunk (Sys.mk [("u", ⟨"u", "f.bin", 2, 1, [], 0, 3600⟩)] []) "u" 0 [1, 2]
      (some "wrong")).2.2 =
      [FsOp.write (Addr.chunk "u" 0) [1, 2], FsOp.unlink (Addr.chunk "u" 0)] from rfl]
  exact List.mem_cons_self _ _

/-- C6 (amended): chunk bytes are streamed directly to the canonical
chunk address — every storage effect of a chunk submission is a write or
an unlink of that one address, with no temporary location and no rename —
and on checksum mismatch the file at that address is deleted, so after
each operation completes the registry invariant still holds: an index is
in `uploaded_chunks` iff verified bytes exist at its canonical chunk
address.  (During a submission the canonical address transiently holds
not-yet-verified bytes, which is what the counterexample exhibits.) -/
theorem c6_direct_write_preserves_blob_invariant (sys : Sys) (uid : String) (idx : Nat)
    (bytes : List Nat) (checksum : Option String)
    (hinv : SysInv sys) :
    SysInv (upload_chunk sys uid idx bytes checksum).2.1 ∧
    ∀ op ∈ (upload_chunk sys uid idx bytes checksum).2.2,
      op = FsOp.write (Addr.chunk uid idx) bytes ∨
      op = FsOp.unlink (Addr.chunk uid idx) := by
  unfold upload_chunk
  cases halg : alGet sys.sessions uid with
  | none => exact ⟨hinv, by simp⟩
  | some s =>
    dsimp only
    by_cases h1 : s.total_chunks ≤ idx
    · rw [if_pos h1]
      exact ⟨hinv, by simp⟩
    · rw [if_neg h1]
      by_cases h2 : idx ∈ s.uploaded_chunks
      · rw [if_pos h2]
        exact ⟨hinv, by simp⟩
      · rw [if_neg h2]
        have h0 : ¬ s.total_chunks = 0 := fun h => h1 (h ▸ Nat.zero_le idx)
        have hid : s.upload_id = uid := (hinv uid s halg).1
        by_cases h3 : declaredMismatch checksum (sha256hex bytes) = true
        · rw [if_pos h3]
          refine ⟨?_, by simp⟩
          intro uid2 s2 hs2
          dsimp only at hs2 ⊢
          obtain ⟨hid2, hnd2, hb2, hiff2⟩ := hinv uid2 s2 hs2
          refine ⟨hid2, hnd2, hb2, fun i => ?_⟩
          rw [alGet_erase_eq_ite, alGet_set_eq_ite]
          by_cases hai : Addr.chunk uid2 i = Addr.chunk uid idx
          · rw [if_pos hai]
            have huid : uid2 = uid := by
              injection hai with huid hi
            have hieq : i = idx := by
              injection hai with huid hi
            subst huid
            have hs2s : s2 = s := by
              rw [halg] at hs2
              exact (Option.some.inj hs2).symm
            subst hs2s
            subst hieq
            simp [h2]
          · rw [if_neg hai, if_neg hai]
            exact hiff2 i
        · rw [if_neg h3]
          rw [show pyDiv (s.uploaded_chunks ++ [idx]).length s.total_chunks =
              .ok (((s.uploaded_chunks ++ [idx]).length : ℚ) / (s.total_chunks : ℚ)) from by
            unfold pyDiv
            rw [if_neg h0]]
          dsimp only
          refine ⟨?_, by simp⟩
          intro uid2 s2 hs2
          dsimp only at hs2 ⊢
          rw [alGet_set_eq_ite] at hs2
          by_cases hu : uid2 = s.upload_id
          · rw [if_pos hu] at hs2
            have hs2s := (Option.some.inj hs2).symm
            subst hs2s
            have hu2 : uid2 = uid := by rw [hu, hid]
            subst hu2
            obtain ⟨hidS, hndS, hbS, hiffS⟩ := hinv uid2 s halg
            refine ⟨hidS, ?_, ?_, ?_⟩
            · show (s.uploaded_chunks ++ [idx]).Nodup
              simp only [List.nodup_append, List.nodup_cons, List.not_mem_nil,
                not_false_eq_true, List.nodup_nil, and_true, true_and]
              refine ⟨hndS, ?_⟩
              intro a ha hb
              rw [List.mem_singleton] at hb
              subst hb
              exact h2 ha
            · intro i hi
              show i < s.total_chunks
              rw [show ({ s with uploaded_chunks := s.uploaded_chunks ++ [idx] } :
                UploadSession).uploaded_chunks = s.uploaded_chunks ++ [idx] from rfl,
                List.mem_append, List.mem_singleton] at hi
              cases hi with
              | inl h => exact hbS i h
              | inr h =>
                subst h
                exact Nat.not_le.mp h1
            · intro i
              show i ∈ s.uploaded_chunks ++ [idx] ↔ _
              rw [List.mem_append, List.mem_singleton, alGet_set_eq_ite]
              by_cases hii : Addr.chunk uid2 i = Addr.chunk uid2 idx
              · have hieq : i = idx := by injection hii
                subst hieq
                simp
              · rw [if_neg hii]
                have hine : ¬ i = idx := fun h => hii (by rw [h])
                simp only [hine, or_false]
                exact hiffS i
          · rw [if_neg hu] at hs2
            obtain ⟨hid2, hnd2, hb2, hiff2⟩ := hinv uid2 s2 hs2
            refine ⟨hid2, hnd2, hb2, fun i => ?_⟩
            rw [alGet_set_eq_ite]
            rw [if_neg (fun hai : Addr.chunk uid2 i = Addr.chunk uid idx => hu (by
              injection hai with h1a h2a
              rw [h1a, hid]))]
            exact hiff2 i

theorem c6_witness :
    SysInv (Sys.mk [("u", ⟨"u", "f.bin", 250, 3, [], 0, 3600⟩)] []) ∧
    (SysInv (upload_chunk (Sys.mk [("u", ⟨"u", "f.bin", 250, 3, [], 0, 3600⟩)] []) "u" 0
        [1, 2] none).2.1 ∧
     ∀ op ∈ (upload_chunk (Sys.mk [("u", ⟨"u", "f.bin", 250, 3, [], 0, 3600⟩)] []) "u" 0
        [1, 2] none).2.2,
       op = FsOp.write (Addr.chunk "u" 0) [1, 2] ∨
       op = FsOp.unlink (Addr.chunk "u" 0)) := by
  have hinv : SysInv (Sys.mk [("u", ⟨"u", "f.bin", 250, 3, [], 0, 3600⟩)] []) := by
    intro uid s hs
    rw [show alGet (Sys.mk [("u", ⟨"u", "f.bin", 250, 3, [], 0, 3600⟩)] []).sessions uid =
        if "u" = uid then some ⟨"u", "f.bin", 250, 3, [], 0, 3600⟩ else none from rfl] at hs
    by_cases h : "u" = uid
    · rw [if_pos h] at hs
      have hse := Option.some.inj hs
      subst hse
      refine ⟨h, by decide, by decide, fun i => ?_⟩
      simp [alGet]
    · rw [if_neg h] at hs
      cases hs
  exact ⟨hinv,
    c6_direct_write_preserves_blob_invariant
      (Sys.mk [("u", ⟨"u", "f.bin", 250, 3, [], 0, 3600⟩)] []) "u" 0 [1, 2] none hinv⟩

/-- C5: when finalize runs on a complete session, assembles the chunks
into `content`, and the declared whole-file checksum is nonempty (so the
truthiness guard takes it into account) but differs from the digest of
the assembled output, then finalize fails carrying the
checksum-mismatch error (re-raised by the catch-all handler as the 500
wrapper around it), the final output file is deleted, the session
registry is completely unchanged (the record is neither deleted nor
rewritten, so finalize can be retried), and every chunk blob is
untouched.  The corresponding path in `main.py` likewise deletes the
output file and returns the checksum-mismatch error. -/
theorem c5_whole_file_checksum_mismatch_keeps_session (sys : Sys)
    (uid filename original : String) (s : UploadSession) (content : List Nat)
    (hs : alGet sys.sessions uid = some s)
    (hlen : s.uploaded_chunks.length = s.total_chunks)
    (hread : readChunks sys.store uid (List.range s.total_chunks) = .ok content)
    (ho : original ≠ "") (hmis : sha256hex content ≠ original) :
    (finalize_upload sys uid filename original).1 =
      .error (.assemblyFailed .finalChecksumMismatch) ∧
    alGet (finalize_upload sys uid filename original).2.store (Addr.final filename) =
      none ∧
    (finalize_upload sys uid filename original).2.sessions = sys.sessions ∧
    (∀ (u : String) (i : Nat),
      alGet (finalize_upload sys uid filename original).2.store (Addr.chunk u i) =
        alGet sys.store (Addr.chunk u i)) ∧
    (∀ (mstore : Store) (muid mfile morig : String),
      sha256hex (mainLoop mstore muid 0 10000).1 ≠ morig →
        (main_finalize mstore muid mfile morig).1 = .error "Checksum mismatch" ∧
        alGet (main_finalize mstore muid mfile morig).2 (Addr.mfinal mfile) = none) := by
  have hfin : finalize_upload sys uid filename original =
      (.error (.assemblyFailed .finalChecksumMismatch),
       Sys.mk sys.sessions
         (alErase (alSet sys.store (Addr.final filename) content) (Addr.final filename))) := by
    unfold finalize_upload
    rw [hs]
    dsimp only
    rw [if_neg (by simp [hlen]), hread]
    dsimp only
    rw [if_pos ⟨ho, hmis⟩]
  refine ⟨by rw [hfin], ?_, by rw [hfin], ?_, ?_⟩
  · rw [hfin]
    exact alGet_erase_self _ _
  · intro u i
    rw [hfin]
    show alGet (alErase (alSet sys.store (Addr.final filename) content)
      (Addr.final filename)) (Addr.chunk u i) = _
    rw [alGet_erase_ne _ _ _ (by intro h; cases h),
      alGet_set_ne _ _ _ _ (by intro h; cases h)]
  · intro mstore muid mfile morig hm
    unfold main_finalize
    rw [if_pos hm]
    exact ⟨rfl, alGet_erase_self _ _⟩

theorem c5_witness :
    alGet (Sys.mk [("u", ⟨"u", "f.bin", 2, 1, [0], 0, 3600⟩)]
        [(Addr.chunk "u" 0, [5, 6])]).sessions "u" =
      some ⟨"u", "f.bin", 2, 1, [0], 0, 3600⟩ ∧
    ([0] : List Nat).length = 1 ∧
    readChunks [(Addr.chunk "u" 0, [5, 6])] "u" (List.range 1) = .ok [5, 6] ∧
    "zzz" ≠ "" ∧ sha256hex [5, 6] ≠ "zzz" ∧
    ((finalize_upload (Sys.mk [("u", ⟨"u", "f.bin", 2, 1, [0], 0, 3600⟩)]
        [(Addr.chunk "u" 0, [5, 6])]) "u" "f.bin" "zzz").1 =
      .error (.assemblyFailed .finalChecksumMismatch) ∧
     alGet (finalize_upload (Sys.mk [("u", ⟨"u", "f.bin", 2, 1, [0], 0, 3600⟩)]
        [(Addr.chunk "u" 0, [5, 6])]) "u" "f.bin" "zzz").2.store (Addr.final "f.bin") =
      none ∧
     (finalize_upload (Sys.mk [("u", ⟨"u", "f.bin", 2, 1, [0], 0, 3600⟩)]
        [(Addr.chunk "u" 0, [5, 6])]) "u" "f.bin" "zzz").2.sessions =
      (Sys.mk [("u", ⟨"u", "f.bin", 2, 1, [0], 0, 3600⟩)]
        [(Addr.chunk "u" 0, [5, 6])]).sessions ∧
     (∀ (u : String) (i : Nat),
       alGet (finalize_upload (Sys.mk [("u", ⟨"u", "f.bin", 2, 1, [0], 0, 3600⟩)]
          [(Addr.chunk "u" 0, [5, 6])]) "u" "f.bin" "zzz").2.store (Addr.chunk u i) =
         alGet (Sys.mk [("u", ⟨"u", "f.bin", 2, 1, [0], 0, 3600⟩)]
          [(Addr.chunk "u" 0, [5, 6])]).store (Addr.chunk u i)) ∧
     (∀ (mstore : Store) (muid mfile morig : String),
       sha256hex (mainLoop mstore muid 0 10000).1 ≠ morig →
         (main_finalize mstore muid mfile morig).1 = .error "Checksum mismatch" ∧
         alGet (main_finalize mstore muid mfile morig).2 (Addr.mfinal mfile) = none)) :=
  ⟨by simp [alGet], rfl, rfl, by decide, by decide,
   c5_whole_file_checksum_mismatch_keeps_session
     (Sys.mk [("u", ⟨"u", "f.bin", 2, 1, [0], 0, 3600⟩)] [(Addr.chunk "u" 0, [5, 6])])
     "u" "f.bin" "zzz" ⟨"u", "f.bin", 2, 1, [0], 0, 3600⟩ [5, 6]
     (by simp [alGet]) rfl rfl (by decide) (by decide)⟩

/-- C1: starting from a fresh session, submitting the chunks carrying
bytes `data i` in ANY permutation of the index range and then finalizing
succeeds and writes, at the final address, exactly the concatenation of
the chunk blobs in ascending index order `0..total_chunks-1` — a value
independent of the permutation, so any submission order yields a
byte-identical final file.  The probing assembly loop of `main.py`
likewise produces the ascending-order concatenation whenever chunks
`0..n-1` are present (within its 10000-file probe bound) and chunk `n`
is absent. -/
theorem c1_finalize_concatenates_in_index_order (sys : Sys) (uid filename : String)
    (s : UploadSession) (data : Nat → List Nat) (perm : List Nat)
    (hs : alGet sys.sessions uid = some s) (hid : s.upload_id = uid)
    (hemp : s.uploaded_chunks = [])
    (hperm : perm.Perm (List.range s.total_chunks)) :
    (finalize_upload (runUploads uid data sys perm) uid filename "").1 =
      .ok ⟨filename, (((List.range s.total_chunks).map data).flatten).length,
        sha256hex (((List.range s.total_chunks).map data).flatten)⟩ ∧
    alGet (finalize_upload (runUploads uid data sys perm) uid filename "").2.store
        (Addr.final filename) =
      some (((List.range s.total_chunks).map data).flatten) ∧
    (∀ (mstore : Store) (muid : String) (n : Nat), n ≤ 10000 →
      (∀ j, j < n → alGet mstore (Addr.mchunk muid j) = some (data j)) →
      (n < 10000 → alGet mstore (Addr.mchunk muid n) = none) →
      (mainLoop mstore muid 0 10000).1 = ((List.range n).map data).flatten) := by
  have hnd : perm.Nodup := hperm.nodup_iff.mpr (List.nodup_range _)
  have hbp : ∀ i ∈ perm, i < s.total_chunks := fun i hi =>
    List.mem_range.mp (hperm.mem_iff.mp hi)
  have hnm : ∀ i ∈ perm, i ∉ s.uploaded_chunks := by
    rw [hemp]
    simp
  obtain ⟨⟨sF, hsF, hupF, htotF, hidF⟩, hblob, hother⟩ :=
    runUploads_spec uid data perm sys s hs hid hnd hbp hnm
  have hlenF : sF.uploaded_chunks.length = sF.total_chunks := by
    rw [hupF, hemp, List.nil_append, htotF, hperm.length_eq, List.length_range]
  have hreadF : readChunks (runUploads uid data sys perm).store uid
      (List.range s.total_chunks) =
      .ok (((List.range s.total_chunks).map data).flatten) :=
    readChunks_ok _ uid data _ (fun i hi => hblob i (hperm.mem_iff.mpr hi))
  have hfin : finalize_upload (runUploads uid data sys perm) uid filename "" =
      (.ok ⟨filename, (((List.range s.total_chunks).map data).flatten).length,
          sha256hex (((List.range s.total_chunks).map data).flatten)⟩,
       Sys.mk (alErase (runUploads uid data sys perm).sessions uid)
         (cleanup_temp_files (alSet (runUploads uid data sys perm).store
            (Addr.final filename)
            (((List.range s.total_chunks).map data).flatten)) uid)) := by
    unfold finalize_upload
    rw [hsF]
    dsimp only
    rw [if_neg (by simp [hlenF]), htotF, hreadF]
    dsimp only
    rw [if_neg (by simp)]
  refine ⟨by rw [hfin], ?_, ?_⟩
  · rw [hfin]
    show alGet (cleanup_temp_files _ uid) (Addr.final filename) = _
    rw [cleanup_get, if_pos (show survivesCleanup uid (Addr.final filename) = true from rfl)]
    exact alGet_set_self _ _ _
  · intro mstore muid n hn hpres hbnd
    have hml := mainLoop_spec muid data 10000 n 0 mstore hn
      (by
        intro j hj
        rw [Nat.zero_add]
        exact hpres j hj)
      (by
        intro hn2
        rw [Nat.zero_add]
        exact hbnd hn2)
    rw [hml]
    congr 1
    apply List.map_congr_left
    intro j _
    rw [Nat.zero_add]

theorem c1_witness :
    alGet (Sys.mk [("u", ⟨"u", "f.bin", 250, 2, [], 0, 3600⟩)] []).sessions "u" =
      some ⟨"u", "f.bin", 250, 2, [], 0, 3600⟩ ∧
    ([1, 0] : List Nat).Perm (List.range 2) ∧
    ((finalize_upload (runUploads "u" (fun i => [i + 10])
        (Sys.mk [("u", ⟨"u", "f.bin", 250, 2, [], 0, 3600⟩)] []) [1, 0]) "u" "f.bin" "").1 =
      .ok ⟨"f.bin", (((List.range 2).map fun i => [i + 10]).flatten).length,
        sha256hex (((List.range 2).map fun i => [i + 10]).flatten)⟩ ∧
     alGet (finalize_upload (runUploads "u" (fun i => [i + 10])
        (Sys.mk [("u", ⟨"u", "f.bin", 250, 2, [], 0, 3600⟩)] []) [1, 0]) "u" "f.bin"
        "").2.store (Addr.final "f.bin") =
      some (((List.range 2).map fun i => [i + 10]).flatten) ∧
     (∀ (mstore : Store) (muid : String) (n : Nat), n ≤ 10000 →
       (∀ j, j < n → alGet mstore (Addr.mchunk muid j) = some ((fun i => [i + 10]) j)) →
       (n < 10000 → alGet mstore (Addr.mchunk muid n) = none) →
       (mainLoop mstore muid 0 10000).1 =
         ((List.range n).map fun i => [i + 10]).flatten)) :=
  ⟨by simp [alGet], by decide,
   c1_finalize_concatenates_in_index_order
     (Sys.mk [("u", ⟨"u", "f.bin", 250, 2, [], 0, 3600⟩)] []) "u" "f.bin"
     ⟨"u", "f.bin", 250, 2, [], 0, 3600⟩ (fun i => [i + 10]) [1, 0]
     (by simp [alGet]) rfl rfl (by decide)⟩

end EdgeCloud
